import Mathlib

/-!
Verification of the query-processing core and package endpoint handlers of the
atom-community-server backend against its natural-language specification.

The repository ships `src/handlers/package_handler.js`; the collaborator
modules it calls (`collection.js`, `query.js`, `data.js`, `users.js`,
`search.js`) are not part of the sources, so their behaviour is modelled from
the specification where a claim depends on it, and abstracted into explicit
parameters (success flags, lookup results) where only the handler's control
flow is at stake.

JavaScript strings are modelled as lists of characters, JS numbers holding
counters as integers (`Int`) or naturals (`Nat`) as appropriate, and the
similarity scores as rationals (`ℚ`).
-/

/-- A JavaScript string, modelled as its list of characters. -/
abbrev Str := List Char

/-- A parsed semantic version `major.minor.patch`. -/
structure SemVer where
  major : Nat
  minor : Nat
  patch : Nat
deriving DecidableEq, Repr

/-- Parses a list of characters as a decimal natural number; `none` when the
list is empty or holds a non-digit. -/
def parseNatChars (s : Str) : Option Nat :=
  if s ≠ [] ∧ s.all Char.isDigit then
    some (s.foldl (fun acc c => 10 * acc + (c.toNat - '0'.toNat)) 0)
  else none

/-- Splits a character list on `'.'`, keeping empty components (so
`"1..2"` yields three components and fails numeric parsing). -/
def splitOnDot (s : Str) : List Str :=
  match s with
  | [] => [[]]
  | c :: rest =>
    if c = '.' then [] :: splitOnDot rest
    else
      match splitOnDot rest with
      | [] => [[c]]
      | t :: ts => (c :: t) :: ts

/-- Parses `major.minor.patch`; `none` on any malformed input. -/
def parseSemVer (s : Str) : Option SemVer :=
  match splitOnDot s with
  | [a, b, c] =>
    match parseNatChars a, parseNatChars b, parseNatChars c with
    | some x, some y, some z => some ⟨x, y, z⟩
    | _, _, _ => none
  | _ => none

/-- Modelled from the spec: `query.engine` of the absent `src/query.js`. Per
the handler comments ("query.engine returns false if no valid query param is
found", and `GETPackagesVersion` recognises validity by getting the same
string back), it returns the given string when it parses as a semver and
`none` (JS `false`) otherwise, including when the parameter is absent. -/
def queryEngine (param : Option Str) : Option Str :=
  match param with
  | none => none
  | some s => if (parseSemVer s).isSome then some s else none

/-- One alternative of a semver range: the spec's common operators. -/
inductive RangeAtom
  | caret (v : SemVer)
  | tilde (v : SemVer)
  | ge (v : SemVer)
  | le (v : SemVer)
  | exact (v : SemVer)
deriving DecidableEq, Repr

/-- Lexicographic order on semantic versions. -/
def svLe (u v : SemVer) : Bool :=
  decide (u.major < v.major) ||
    (u.major == v.major &&
      (decide (u.minor < v.minor) ||
        (u.minor == v.minor && decide (u.patch ≤ v.patch))))

/-- Strict lexicographic order on semantic versions. -/
def svLt (u v : SemVer) : Bool := svLe u v && !(u == v)

/-- Modelled from the spec (§4.4): whether a concrete version `v` satisfies a
single range alternative. `^` keeps the leftmost nonzero component fixed; `~`
keeps major and minor fixed. -/
def atomSatisfies (a : RangeAtom) (v : SemVer) : Bool :=
  match a with
  | .caret b =>
    svLe b v &&
      (if b.major > 0 then svLt v ⟨b.major + 1, 0, 0⟩
       else if b.minor > 0 then svLt v ⟨0, b.minor + 1, 0⟩
       else svLt v ⟨0, b.minor, b.patch + 1⟩)
  | .tilde b => svLe b v && svLt v ⟨b.major, b.minor + 1, 0⟩
  | .ge b => svLe b v
  | .le b => svLe v b
  | .exact b => b == v

/-- Modelled from the spec (§4.4): a range is a `||`-union of alternatives;
the version must satisfy at least one. -/
def rangeSatisfies (r : List RangeAtom) (v : SemVer) : Bool :=
  r.any (fun a => atomSatisfies a v)

/-- A version record: its declared engine-compatibility range and tarball
reference. -/
structure Version where
  engines : List RangeAtom
  tarball_url : Str
deriving DecidableEq, Repr

/-- A package record as the handlers see it: name, description, download
counter and the semver-keyed version map (modelled as an association list). -/
structure Package where
  name : Str
  description : Str
  downloads : Int
  versions : List (Str × Version)
deriving DecidableEq, Repr

/-- Modelled from the spec: `collection.EngineFilter` of the absent
`src/collection.js` (§4.4): keeps only the versions whose declared range
contains the requested version, and is a no-op when the requested version
fails to parse. -/
def EngineFilter (pack : Package) (requested : Str) : Package :=
  match parseSemVer requested with
  | none => pack
  | some v =>
    { pack with versions := pack.versions.filter (fun pr => rangeSatisfies pr.2.engines v) }

/-- Embeds the engine-filter step of `GETPackagesDetails`
(`package_handler.js` lines 306-310): the filter runs only when
`query.engine` returned a truthy value. -/
def detailsEngineStep (pack : Package) (engineParam : Option Str) : Package :=
  match queryEngine engineParam with
  | some s => EngineFilter pack s
  | none => pack

/-! ## Pagination -/

/-- JS `Array.prototype.splice(start, deleteCount)` restricted to the
in-range, non-negative arguments the handlers use: removes `deleteCount`
elements starting at index `start` (both clamped to the array). -/
def splice (l : List α) (start deleteCount : Nat) : List α :=
  l.take start ++ l.drop (start + deleteCount)

/-- Embeds `Math.ceil(packages.length / paginated_amount)`
(`package_handler.js` lines 60 and 251) as ceiling division; for a positive
page size this equals the real ceiling (proved below). -/
def totalPages (len p : Nat) : Nat := (len + p - 1) / p

/-- Embeds the splice-based pruning of `GETPackages` (lines 61-70) and
`GETPackagesSearch` (lines 253-264): when the page is not 1, remove the first
`page * p` items; when the page is not the last, remove everything from index
`page * p + p` of what remains. -/
def prunePage (packages : List α) (page p : Nat) : List α :=
  let total_pages := totalPages packages.length p
  let packages1 := if page ≠ 1 then splice packages 0 (page * p) else packages
  if page ≠ total_pages then splice packages1 (page * p + p) packages1.length
  else packages1

/-- The slice the specification describes (§4.5): the half-open index range
from `(page-1)·p` to `page·p`, clamped to the list. Stated from the spec's
words, to be compared with `prunePage`. -/
def specSlice (l : List α) (page p : Nat) : List α :=
  (l.drop ((page - 1) * p)).take p

/-- Concatenation of the slices the code produces for pages 1 through
`total_pages`. -/
def concatPages (cat : List α) (p : Nat) : List α :=
  ((List.range (totalPages cat.length p)).map (fun i => prunePage cat (i + 1) p)).flatten

/-- JS post-increment `x++`: the expression evaluates to the old value of the
variable and stores the old value plus one back into it. -/
def postIncrement (x : Nat) : Nat × Nat := (x, x + 1)

/-- The page numbers carried by the three pagination links of a response. -/
structure LinkPages where
  selfPage : Nat
  lastPage : Nat
  nextPage : Nat
deriving DecidableEq, Repr

/-- Embeds the `Link` header construction of `GETPackages` (lines 76-89).
Template-literal expressions evaluate left to right: the `self` link reads
`params.page`, the `last` link reads `total_pages`, and the `next` link reads
`params.page++`, a post-increment. Returns the three link page numbers and
the final value of `params.page`. -/
def getPackagesLinkPages (page total_pages : Nat) : LinkPages × Nat :=
  let s := page
  let l := total_pages
  let n := postIncrement page
  (⟨s, l, n.1⟩, n.2)

/-- Embeds the `Link` header construction of `GETPackagesSearch`
(lines 268-283), which formats its page numbers exactly like `GETPackages`,
including the `params.page++` post-increment in the `next` link. -/
def getPackagesSearchLinkPages (page total_pages : Nat) : LinkPages × Nat :=
  let s := page
  let l := total_pages
  let n := postIncrement page
  (⟨s, l, n.1⟩, n.2)

/-! ## Sorting, ranking and the listing pipelines -/

/-- Inserts a package into a list sorted by downloads descending, after any
earlier package with at least as many downloads (stable). Modelled from the
spec: `collection.Sort` of the absent `src/collection.js`, §4.3 key
`downloads (desc)`. -/
def insertByDownloads (x : Package) : List Package → List Package
  | [] => [x]
  | y :: ys =>
    if y.downloads < x.downloads then x :: y :: ys else y :: insertByDownloads x ys

/-- Stable insertion sort by downloads descending. -/
def sortByDownloads (l : List Package) : List Package :=
  l.foldr insertByDownloads []

/-- Modelled from the spec: `collection.Direction` of the absent
`src/collection.js` (§4.3): reverses the sequence for the non-default
direction and leaves it unchanged otherwise. -/
def direction (l : List α) (flip : Bool) : List α :=
  if flip then l.reverse else l

/-! ## Similarity scoring

`src/search.js` is not among the sources; the four algorithms are modelled
from the spec (§4.1), which also fixes the contract `score : [0,1]` with
`score("","") = 1`. Scores are rationals; the both-empty case is defined to
be 1 as the contract prescribes (the quotient formulas are 0/0 there). -/

/-- Classic Levenshtein distance with unit insertion, deletion and
substitution costs. Modelled from the spec: algorithm (1) of §4.1
(`levenshtein` of the absent `src/search.js`). -/
def lev : Str → Str → Nat
  | [], b => b.length
  | x :: a, [] => (x :: a).length
  | x :: a, y :: b =>
    if x = y then lev a b
    else 1 + min (lev a b) (min (lev (x :: a) b) (lev a (y :: b)))
termination_by a b => a.length + b.length
decreasing_by all_goals simp <;> omega

/-- Weighted edit distance with insertion = deletion = 1 and substitution = 2.
Modelled from the spec: algorithm (2) of §4.1 (`vlEditDistance` of the absent
`src/search.js`). -/
def wed : Str → Str → Nat
  | [], b => b.length
  | x :: a, [] => (x :: a).length
  | x :: a, y :: b =>
    if x = y then wed a b
    else min (2 + wed a b) (min (1 + wed (x :: a) b) (1 + wed a (y :: b)))
termination_by a b => a.length + b.length
decreasing_by all_goals simp <;> omega

/-- Length of the longest common subsequence, by the textbook dynamic
programming recurrence. Modelled from the spec: algorithm (4) of §4.1
(`lcs` of the absent `src/search.js`). -/
def lcsLen : Str → Str → Nat
  | [], _ => 0
  | _ :: _, [] => 0
  | x :: a, y :: b =>
    if x = y then 1 + lcsLen a b
    else max (lcsLen (x :: a) b) (lcsLen a (y :: b))
termination_by a b => a.length + b.length
decreasing_by all_goals simp <;> omega

/-- Similarity from plain edit distance: `1 - d / max(len a, len b)`;
1 when both strings are empty (§4.1 contract). -/
def levSim (a b : Str) : ℚ :=
  if a = [] ∧ b = [] then 1
  else 1 - (lev a b : ℚ) / (max a.length b.length : ℚ)

/-- Similarity from weighted edit distance: `1 - d / (len a + len b)`;
1 when both strings are empty (§4.1 contract). -/
def wedSim (a b : Str) : ℚ :=
  if a = [] ∧ b = [] then 1
  else 1 - (wed a b : ℚ) / ((a.length : ℚ) + (b.length : ℚ))

/-- LCS-overlap similarity: `2·LCS_len / (len a + len b)`; 1 when both
strings are empty (§4.1 contract). -/
def lcsSim (a b : Str) : ℚ :=
  if a = [] ∧ b = [] then 1
  else 2 * (lcsLen a b : ℚ) / ((a.length : ℚ) + (b.length : ℚ))

/-- Whether a character separates words for WSDM tokenization: whitespace,
hyphen or underscore (§4.1 algorithm (3)). -/
def isSep (c : Char) : Bool := c = ' ' || c = '-' || c = '_'

/-- Tokenizer worker: `cur` holds the reversed current token. Empty tokens
are never emitted. -/
def tokenizeAux : Str → Str → List Str
  | [], cur => if cur = [] then [] else [cur.reverse]
  | c :: rest, cur =>
    if isSep c then
      if cur = [] then tokenizeAux rest []
      else cur.reverse :: tokenizeAux rest []
    else tokenizeAux rest (c :: cur)

/-- Splits a string into its non-empty tokens on whitespace, hyphen and
underscore (§4.1 algorithm (3)). -/
def tokenize (s : Str) : List Str := tokenizeAux s []

/-- Best (maximum) similarity of token `t` against any token of `ts`, using
algorithm (1) as the base similarity; 0 when `ts` is empty. -/
def bestMatch (t : Str) (ts : List Str) : ℚ :=
  (ts.map (fun u => levSim t u)).foldr max 0

/-- Arithmetic mean of a list of rationals; 0 for the empty list. -/
def meanList (l : List ℚ) : ℚ :=
  if l = [] then 0 else l.sum / (l.length : ℚ)

/-- Word-split double-mean similarity (§4.1 algorithm (3),
`levenshteinWSDM` of the absent `src/search.js`): the mean over the query
tokens of their best match among the target tokens, averaged with the
symmetric mean from the target side. When either side has no tokens the spec
formula degenerates (a mean over nothing), so the model falls back to the
base similarity of the raw strings, which meets the §4.1 contract on empty
inputs. -/
def wsdmSim (a b : Str) : ℚ :=
  let ta := tokenize a
  let tb := tokenize b
  if ta = [] ∨ tb = [] then levSim a b
  else
    (meanList (ta.map (fun t => bestMatch t tb)) +
      meanList (tb.map (fun t => bestMatch t ta))) / 2

/-- The closed set of selectable similarity algorithms (§4.1, and the
`SEARCHALGORITHM` configuration values). -/
inductive Algorithm
  | levenshteinDistance
  | vlEditDistance
  | levenshteinDistanceWSDM
  | lcsOverlap
deriving DecidableEq, Repr

/-- The similarity scorer: dispatches on the configured algorithm. -/
def score (alg : Algorithm) (a b : Str) : ℚ :=
  match alg with
  | .levenshteinDistance => levSim a b
  | .vlEditDistance => wedSim a b
  | .levenshteinDistanceWSDM => wsdmSim a b
  | .lcsOverlap => lcsSim a b

/-! ## Ranking and the search pipeline -/

/-- A package paired with its relevance score (spec §4.2 ScoredPackage). -/
structure Scored where
  pack : Package
  relevance : ℚ
deriving DecidableEq

/-- Modelled from the spec: the Ranker behind `collection.SearchWithinPackages`
(§4.2): scores every package with
`max(nameScore, 0.5 × descriptionScore)` and drops none. -/
def rank (alg : Algorithm) (q : Str) (cat : List Package) : List Scored :=
  cat.map (fun p => ⟨p, max (score alg q p.name) ((1 / 2) * score alg q p.description)⟩)

/-- Stable descending insertion by relevance. -/
def insertByRelevance (x : Scored) : List Scored → List Scored
  | [] => [x]
  | y :: ys =>
    if y.relevance < x.relevance then x :: y :: ys else y :: insertByRelevance x ys

/-- Stable insertion sort by relevance descending (spec §4.3 key
`relevance`). -/
def sortByRelevance (l : List Scored) : List Scored :=
  l.foldr insertByRelevance []

/-- Embeds the `GETPackagesSearch` pipeline (lines 245-264) over the
spec-modelled collaborators: rank, sort, direction, then the splice-based
pruning. The final `POSPrune` display-field pruning is outside the model; it
maps each element individually and applies no engine filtering. -/
def searchPipeline (alg : Algorithm) (q : Str) (cat : List Package)
    (page p : Nat) (flip : Bool) : List Scored :=
  prunePage (direction (sortByRelevance (rank alg q cat)) flip) page p

/-- Embeds the `GETPackages` pipeline (lines 54-71) at the value level:
sort, direction, then the splice-based pruning (again without the final
`POSPrune` field pruning). -/
def listingPipeline (cat : List Package) (page p : Nat) (flip : Bool) :
    List Package :=
  prunePage (direction (sortByDownloads cat) flip) page p

/-! ## The cached catalog and the copy-then-sort phase of GETPackages

JS arrays are reference values. A heap is a list of arrays indexed by
reference; reference 0 is the catalog array cached by the `data`
collaborator (`all_packages.content`). -/

/-- A heap of JS arrays of packages, indexed by reference. -/
abbrev Heap := List (List Package)

/-- Dereferences an array. -/
def heapGet (h : Heap) (r : Nat) : List Package := h.getD r []

/-- Modelled from the spec: `collection.DeepCopy` of the absent
`src/collection.js`: allocates a fresh array with the same contents and
returns the new reference, leaving the original untouched. -/
def deepCopyAlloc (h : Heap) (r : Nat) : Heap × Nat :=
  (h ++ [heapGet h r], h.length)

/-- Modelled from the spec: `collection.Sort` of the absent
`src/collection.js`. §4.3 orders by the named key (default
`downloads desc`); §5 states the authoritative cached catalog must not be
mutated and that correctness depends on handing the pipeline an isolated
copy, i.e. the pipeline may mutate the array it receives — modelled as JS
`Array.prototype.sort` does it: the referenced array is reordered in place
and the same reference is returned. -/
def sortInPlace (h : Heap) (r : Nat) : Heap × Nat :=
  (h.set r (sortByDownloads (heapGet h r)), r)

/-- Modelled from the spec: `collection.Direction` at the reference level:
reverses the referenced array in place for the non-default direction. -/
def directionInPlace (h : Heap) (r : Nat) (flip : Bool) : Heap × Nat :=
  (if flip then h.set r (heapGet h r).reverse else h, r)

/-- Embeds lines 54-57 of `GETPackages`: line 54 deep-copies
`all_packages.content` into the local `packages`; line 56 then calls
`collection.Sort(all_packages.content, params.sort)` — on the cached
reference, not on the copy — and rebinds `packages` to its result; line 57
applies `collection.Direction` to that. Returns the final heap and the
reference the handler continues with. -/
def getPackagesSortPhase (h : Heap) (cacheRef : Nat) (flip : Bool) :
    Heap × Nat :=
  let hc := deepCopyAlloc h cacheRef
  let hs := sortInPlace hc.1 cacheRef
  directionInPlace hs.1 hs.2 flip

/-! ## Tarball, uninstall and star handlers

`data.js` and `users.js` are not among the sources; their results are
supplied as parameters (a lookup result, success flags), and each embedding
follows the handler's control flow over them. -/

/-- The externally visible outcome of the tarball endpoint. -/
inductive TarballResponse
  | notFound
  | redirect (url : Str)
deriving DecidableEq, Repr

/-- Outcome of `GETPackagesVersionTarball`: the response, the package
content handed to `data.SetPackageByName` (if any), and whether a warning
was logged. -/
structure TarballResult where
  response : TarballResponse
  written : Option Package
  warned : Bool
deriving DecidableEq, Repr

/-- Embeds `GETPackagesVersionTarball` (lines 573-619): validate the version
through `query.engine`, look the package up, check the version key,
increment `downloads`, attempt the save — logging a warning instead of
erroring when it fails — and redirect to the version's tarball URL. -/
def getPackagesVersionTarball (versionName : Str) (lookup : Option Package)
    (saveOk : Bool) : TarballResult :=
  match queryEngine (some versionName) with
  | none => ⟨.notFound, none, false⟩
  | some vn =>
    match lookup with
    | none => ⟨.notFound, none, false⟩
    | some pack =>
      match pack.versions.find? (fun pr => pr.1 == vn) with
      | none => ⟨.notFound, none, false⟩
      | some pr =>
        let updated := { pack with downloads := pack.downloads + 1 }
        ⟨.redirect pr.2.tarball_url, some updated, !saveOk⟩

/-- The externally visible outcome of the uninstall-event endpoint. -/
inductive UninstallResponse
  | handledError
  | created201
deriving DecidableEq, Repr

/-- Outcome of `POSTPackagesEventUninstall`: the response and the package
content handed to `data.SetPackageByName` (if the handler got that far). -/
structure UninstallResult where
  response : UninstallResponse
  written : Option Package
deriving DecidableEq, Repr

/-- Embeds the logged-in body of `POSTPackagesEventUninstall`
(lines 698-718): look the package up, decrement `downloads` unconditionally,
write the package back; 201 on success, a handled error otherwise. -/
def postPackagesEventUninstall (lookup : Option Package) (writeOk : Bool) :
    UninstallResult :=
  match lookup with
  | none => ⟨.handledError, none⟩
  | some pack =>
    let updated := { pack with downloads := pack.downloads - 1 }
    if writeOk then ⟨.created201, some updated⟩
    else ⟨.handledError, some updated⟩

/-- The externally visible outcome of the star endpoint. -/
inductive StarResponse
  | ok200
  | serverError
  | serverErrorJSON
  | authFail
deriving DecidableEq, Repr

/-- Outcome of `POSTPackagesStar`: the response and whether the handler
called `data.UnStarPackageByName` to roll the star back. -/
structure StarResult where
  response : StarResponse
  unstarAttempted : Bool
deriving DecidableEq, Repr

/-- Embeds `POSTPackagesStar` (lines 357-410): authenticate, star the
package, record the star on the user profile; when the profile update fails,
attempt to unstar the package before answering with a server error
(`common.ServerError` when the rollback succeeds, `error.ServerErrorJSON`
when it fails too). -/
def postPackagesStar (userOk starPkgOk addUserStarOk unstarOk : Bool) :
    StarResult :=
  if userOk then
    if starPkgOk then
      if addUserStarOk then ⟨.ok200, false⟩
      else
        if unstarOk then ⟨.serverError, true⟩
        else ⟨.serverErrorJSON, true⟩
    else ⟨.serverError, false⟩
  else ⟨.authFail, false⟩

/-! ## Pagination claims -/

/-- C1: the splice-based pruning does not return the claimed
`[(page-1)·p, page·p)` slice. With 7 items and page size 3 (total_pages = 3),
page 1 keeps six items where the claim demands the first three, and page 3 —
the last page — keeps none where the claim demands the seventh item. (A page
beyond total_pages, such as 4, does yield an empty slice without error.) -/
theorem C1_slice_divergence :
    prunePage (List.range 7) 1 3 = [0, 1, 2, 3, 4, 5] ∧
    specSlice (List.range 7) 1 3 = [0, 1, 2] ∧
    prunePage (List.range 7) 3 3 = [] ∧
    specSlice (List.range 7) 3 3 = [6] ∧
    prunePage (List.range 7) 4 3 = [] := by decide

/-- C2: concatenating the code's slices for pages 1 through total_pages does
not reproduce the catalog: with 12 items and page size 3 the concatenation
repeats items 9, 10 and 11. -/
theorem C2_concat_divergence :
    concatPages (List.range 12) 3 =
      [0, 1, 2, 3, 4, 5, 6, 7, 8, 9, 10, 11, 9, 10, 11] ∧
    concatPages (List.range 12) 3 ≠ List.range 12 := by decide

/-- C3 counterexample: the code computes `Math.ceil(total_count / pageSize)`
with no lower clamp, so an empty catalog yields 0 total pages where the
claimed `max(1, ceil(0 / 30))` is 1. -/
theorem C3_counterexample :
    totalPages 0 30 = 0 ∧
    max 1 ((Int.ceil ((0 : ℚ) / (30 : ℚ))).toNat) = 1 ∧
    ¬ totalPages 0 30 = max 1 ((Int.ceil ((0 : ℚ) / (30 : ℚ))).toNat) := by
  refine ⟨by decide, ?_, ?_⟩ <;> norm_num [totalPages]

/-- C3 amended: the total page count equals `ceil(total_count / pageSize)`
with no lower clamp; in particular it is 0, not 1, when the catalog is
empty. -/
theorem C3_total_pages_amended (n p : Nat) (hp : 0 < p) :
    (totalPages n p : ℤ) = Int.ceil ((n : ℚ) / (p : ℚ)) ∧ totalPages 0 p = 0 := by
  constructor
  · have hq := Nat.div_add_mod (n + p - 1) p
    have hr : (n + p - 1) % p < p := Nat.mod_lt _ hp
    have h1 : n ≤ p * ((n + p - 1) / p) := by omega
    have h2 : p * ((n + p - 1) / p) < n + p := by omega
    have hp' : (0 : ℚ) < (p : ℚ) := by exact_mod_cast hp
    have hcast : ((totalPages n p : ℤ) : ℚ) = (((n + p - 1) / p : Nat) : ℚ) := by
      norm_cast
    rw [eq_comm, Int.ceil_eq_iff]
    refine ⟨?_, ?_⟩
    · rw [lt_div_iff₀ hp']
      have he : ((totalPages n p : ℤ) - 1 : ℚ) * (p : ℚ)
          = ((totalPages n p : ℤ) : ℚ) * (p : ℚ) - (p : ℚ) := by ring
      rw [he, sub_lt_iff_lt_add, hcast, mul_comm]
      exact_mod_cast h2
    · rw [div_le_iff₀ hp', hcast, mul_comm]
      exact_mod_cast h1
  · show (0 + p - 1) / p = 0
    have : 0 + p - 1 < p := by omega
    exact Nat.div_eq_of_lt this

/-- C3 witness: the amended statement at 7 items and page size 3. -/
theorem C3_total_pages_amended_witness :
    0 < 3 ∧ ((totalPages 7 3 : ℤ) = Int.ceil ((7 : ℚ) / (3 : ℚ)) ∧ totalPages 0 3 = 0) :=
  ⟨by decide, C3_total_pages_amended 7 3 (by decide)⟩

/-- C4 counterexample: for requested page 2 (with 5 total pages) the page
number emitted in the `next` link is 2 — the post-increment `params.page++`
evaluates to the pre-increment value — not the claimed 3. -/
theorem C4_counterexample :
    (getPackagesLinkPages 2 5).1.nextPage = 2 ∧
    (getPackagesLinkPages 2 5).1.nextPage ≠ 2 + 1 := by decide

/-- C4 amended: in both the listing and the search handler the `self` link
carries the requested page, the `last` link carries total_pages, and the
`next` link carries the requested page itself — equal to `self`, not
`page + 1` — because the JS post-increment yields the variable's old value;
the incremented value only lands in the dead local `params.page`. -/
theorem C4_link_pages_amended (page tp : Nat) :
    (getPackagesLinkPages page tp).1 = ⟨page, tp, page⟩ ∧
    (getPackagesLinkPages page tp).1.nextPage = (getPackagesLinkPages page tp).1.selfPage ∧
    (getPackagesLinkPages page tp).2 = page + 1 ∧
    (getPackagesSearchLinkPages page tp).1 = ⟨page, tp, page⟩ ∧
    (getPackagesSearchLinkPages page tp).2 = page + 1 :=
  ⟨rfl, rfl, rfl, rfl, rfl⟩

/-- C5: the cached catalog array is mutated by the copy-then-sort phase of
`GETPackages`: with a two-package cache stored unsorted at reference 0, the
phase leaves reference 0 reordered (sorted by downloads descending), because
line 56 hands `all_packages.content` — not the line-54 deep copy — to
`collection.Sort`. -/
theorem C5_cache_mutated :
    heapGet ((getPackagesSortPhase
        [[⟨['b'], [], 0, []⟩, ⟨['a'], [], 5, []⟩]] 0 false).1) 0
      = [⟨['a'], [], 5, []⟩, ⟨['b'], [], 0, []⟩] ∧
    heapGet ((getPackagesSortPhase
        [[⟨['b'], [], 0, []⟩, ⟨['a'], [], 5, []⟩]] 0 false).1) 0
      ≠ [⟨['b'], [], 0, []⟩, ⟨['a'], [], 5, []⟩] := by decide

/-! ## Counter, tarball and star claims -/

/-- C8 counterexample: an authenticated uninstall event against a package
whose download counter is 0 writes back a download counter of -1; the
handler decrements unconditionally, so it can drive the counter below
zero. -/
theorem C8_counterexample :
    (postPackagesEventUninstall (some ⟨['p'], [], 0, []⟩) true).written
      = some ⟨['p'], [], -1, []⟩ ∧
    ¬ (0 : Int) ≤ -1 := by decide

/-- C8 amended: the tarball handler only increments the counter and so
preserves non-negativity, while the uninstall handler decrements by exactly
one with no floor: it preserves non-negativity only when the counter was at
least 1, and always writes back `downloads - 1`. -/
theorem C8_downloads_amended (pack : Package) :
    (0 ≤ pack.downloads →
      ∀ vn saveOk p2,
        (getPackagesVersionTarball vn (some pack) saveOk).written = some p2 →
        0 ≤ p2.downloads) ∧
    (1 ≤ pack.downloads →
      ∀ writeOk p2,
        (postPackagesEventUninstall (some pack) writeOk).written = some p2 →
        0 ≤ p2.downloads) ∧
    (∀ writeOk,
      (postPackagesEventUninstall (some pack) writeOk).written
        = some { pack with downloads := pack.downloads - 1 }) := by
  refine ⟨?_, ?_, ?_⟩
  · intro h vn saveOk p2 hw
    unfold getPackagesVersionTarball at hw
    cases hqe : queryEngine (some vn) with
    | none => rw [hqe] at hw; simp at hw
    | some v =>
      rw [hqe] at hw
      simp only [] at hw
      cases hf : pack.versions.find? (fun pr => pr.1 == v) with
      | none => rw [hf] at hw; simp at hw
      | some pr =>
        rw [hf] at hw
        simp at hw
        have : p2.downloads = pack.downloads + 1 := by
          rw [← hw]
        omega
  · intro h writeOk p2 hw
    cases writeOk <;> simp [postPackagesEventUninstall] at hw <;>
      · have : p2.downloads = pack.downloads - 1 := by rw [← hw]
        omega
  · intro writeOk
    cases writeOk <;> simp [postPackagesEventUninstall]

/-- C8 amended, witness: a tarball download against a package with 5
downloads writes back 6; an uninstall against 5 writes back 4. -/
theorem C8_downloads_amended_witness :
    0 ≤ (⟨['p'], [], 6, [(['1', '.', '0', '.', '0'], ⟨[], ['u']⟩)]⟩ : Package).downloads ∧
    0 ≤ (⟨['p'], [], 4, [(['1', '.', '0', '.', '0'], ⟨[], ['u']⟩)]⟩ : Package).downloads :=
  ⟨(C8_downloads_amended ⟨['p'], [], 5, [(['1', '.', '0', '.', '0'], ⟨[], ['u']⟩)]⟩).1
      (by decide) ['1', '.', '0', '.', '0'] true
      ⟨['p'], [], 6, [(['1', '.', '0', '.', '0'], ⟨[], ['u']⟩)]⟩ (by decide),
    (C8_downloads_amended ⟨['p'], [], 5, [(['1', '.', '0', '.', '0'], ⟨[], ['u']⟩)]⟩).2.1
      (by decide) true
      ⟨['p'], [], 4, [(['1', '.', '0', '.', '0'], ⟨[], ['u']⟩)]⟩ (by decide)⟩

/-- C9: whenever the package exists and holds the requested valid-semver
version, the response is the redirect to that version's tarball URL for
every save outcome; a failed save of the incremented download count only
sets the warning-log flag and is never surfaced as an error response. -/
theorem C9_redirect_despite_save_failure (vn : Str)
    (hv : (parseSemVer vn).isSome = true) (pack : Package) (pr : Str × Version)
    (hfind : pack.versions.find? (fun q => q.1 == vn) = some pr) (saveOk : Bool) :
    (getPackagesVersionTarball vn (some pack) saveOk).response
      = .redirect pr.2.tarball_url ∧
    (getPackagesVersionTarball vn (some pack) saveOk).warned = !saveOk := by
  unfold getPackagesVersionTarball
  simp [queryEngine, hv, hfind]

/-- C9 witness: a concrete package holding version 1.0.0 redirects to its
tarball URL even when the save fails. -/
theorem C9_redirect_despite_save_failure_witness :
    ((parseSemVer ['1', '.', '0', '.', '0']).isSome = true) ∧
    (getPackagesVersionTarball ['1', '.', '0', '.', '0']
        (some ⟨['p'], [], 0, [(['1', '.', '0', '.', '0'], ⟨[], ['u']⟩)]⟩) false).response
      = .redirect ['u'] :=
  ⟨by decide,
    (C9_redirect_despite_save_failure ['1', '.', '0', '.', '0'] (by decide)
      ⟨['p'], [], 0, [(['1', '.', '0', '.', '0'], ⟨[], ['u']⟩)]⟩
      (['1', '.', '0', '.', '0'], ⟨[], ['u']⟩) (by decide) false).1⟩

/-- C10: the star handler answers 200 exactly when authentication, the
package star and the user-profile star all succeeded, and whenever the
profile star fails after the package star succeeded it attempts to unstar
the package before answering with a server error. -/
theorem C10_star_rollback (userOk starPkgOk addUserStarOk unstarOk : Bool) :
    ((postPackagesStar userOk starPkgOk addUserStarOk unstarOk).response = .ok200
      ↔ userOk = true ∧ starPkgOk = true ∧ addUserStarOk = true) ∧
    (userOk = true → starPkgOk = true → addUserStarOk = false →
      (postPackagesStar userOk starPkgOk addUserStarOk unstarOk).unstarAttempted = true ∧
      (postPackagesStar userOk starPkgOk addUserStarOk unstarOk).response ≠ .ok200) := by
  cases userOk <;> cases starPkgOk <;> cases addUserStarOk <;> cases unstarOk <;>
    simp [postPackagesStar]

/-- C10 witness: with authentication and package star succeeding but the
profile star failing, the rollback is attempted and the response is not
200. -/
theorem C10_star_rollback_witness :
    (postPackagesStar true true false true).unstarAttempted = true ∧
    (postPackagesStar true true false true).response ≠ .ok200 :=
  (C10_star_rollback true true false true).2 rfl rfl rfl

/-! ## Engine-filter scope (C6) -/

theorem splice_subset (l : List α) (s d : Nat) : splice l s d ⊆ l := by
  intro x hx
  rcases List.mem_append.mp hx with hx | hx
  · exact List.take_subset _ _ hx
  · exact List.drop_subset _ _ hx

theorem prunePage_subset (l : List α) (page p : Nat) : prunePage l page p ⊆ l := by
  intro x hx
  simp only [prunePage] at hx
  split at hx
  · have h := splice_subset _ _ _ hx
    split at h
    · exact splice_subset _ _ _ h
    · exact h
  · split at hx
    · exact splice_subset _ _ _ hx
    · exact hx

theorem direction_subset (l : List α) (f : Bool) : direction l f ⊆ l := by
  cases f with
  | false => simp [direction]
  | true =>
    intro x hx
    simp only [direction, if_pos] at hx
    exact (List.mem_reverse).mp hx

theorem mem_of_mem_insertByRelevance {x y : Scored} {l : List Scored}
    (h : x ∈ insertByRelevance y l) : x = y ∨ x ∈ l := by
  induction l with
  | nil => simpa [insertByRelevance] using h
  | cons z zs ih =>
    simp only [insertByRelevance] at h
    split at h
    · rcases List.mem_cons.mp h with h | h
      · exact Or.inl h
      · exact Or.inr h
    · rcases List.mem_cons.mp h with h | h
      · exact Or.inr (List.mem_cons.mpr (Or.inl h))
      · rcases ih h with h | h
        · exact Or.inl h
        · exact Or.inr (List.mem_cons.mpr (Or.inr h))

theorem mem_of_mem_sortByRelevance {x : Scored} {l : List Scored}
    (h : x ∈ sortByRelevance l) : x ∈ l := by
  induction l with
  | nil => simp [sortByRelevance] at h
  | cons y ys ih =>
    simp only [sortByRelevance, List.foldr_cons] at h
    rcases mem_of_mem_insertByRelevance h with h | h
    · exact List.mem_cons.mpr (Or.inl h)
    · exact List.mem_cons.mpr (Or.inr (ih h))

theorem mem_of_mem_insertByDownloads {x y : Package} {l : List Package}
    (h : x ∈ insertByDownloads y l) : x = y ∨ x ∈ l := by
  induction l with
  | nil => simpa [insertByDownloads] using h
  | cons z zs ih =>
    simp only [insertByDownloads] at h
    split at h
    · rcases List.mem_cons.mp h with h | h
      · exact Or.inl h
      · exact Or.inr h
    · rcases List.mem_cons.mp h with h | h
      · exact Or.inr (List.mem_cons.mpr (Or.inl h))
      · rcases ih h with h | h
        · exact Or.inl h
        · exact Or.inr (List.mem_cons.mpr (Or.inr h))

theorem mem_of_mem_sortByDownloads {x : Package} {l : List Package}
    (h : x ∈ sortByDownloads l) : x ∈ l := by
  induction l with
  | nil => simp [sortByDownloads] at h
  | cons y ys ih =>
    simp only [sortByDownloads, List.foldr_cons] at h
    rcases mem_of_mem_insertByDownloads h with h | h
    · exact List.mem_cons.mpr (Or.inl h)
    · exact List.mem_cons.mpr (Or.inr (ih h))

theorem pack_mem_of_mem_rank {alg : Algorithm} {q : Str} {cat : List Package}
    {sp : Scored} (h : sp ∈ rank alg q cat) : sp.pack ∈ cat := by
  rcases List.mem_map.mp h with ⟨p, hp, rfl⟩
  simpa using hp

/-- C6: the engine-compatibility filter runs only on the single-package
detail view and only when the requested version is present and parses as a
semver; an absent or malformed version passes the package through untouched
(no error), and every package a listing or search request returns is an
element of the catalog taken unchanged — in particular with its version set
unfiltered. -/
theorem C6_engine_filter_scope :
    (∀ pack : Package, detailsEngineStep pack none = pack) ∧
    (∀ (pack : Package) (s : Str), parseSemVer s = none →
      detailsEngineStep pack (some s) = pack) ∧
    (∀ (pack : Package) (s : Str), (parseSemVer s).isSome = true →
      detailsEngineStep pack (some s) = EngineFilter pack s) ∧
    (∀ (alg : Algorithm) (q : Str) (cat : List Package) (page p : Nat)
        (flip : Bool) (sp : Scored), sp ∈ searchPipeline alg q cat page p flip →
      sp.pack ∈ cat) ∧
    (∀ (cat : List Package) (page p : Nat) (flip : Bool) (x : Package),
      x ∈ listingPipeline cat page p flip → x ∈ cat) := by
  refine ⟨?_, ?_, ?_, ?_, ?_⟩
  · intro pack
    simp [detailsEngineStep, queryEngine]
  · intro pack s h
    simp [detailsEngineStep, queryEngine, h]
  · intro pack s h
    simp [detailsEngineStep, queryEngine, h]
  · intro alg q cat page p flip sp h
    have h1 := prunePage_subset _ page p h
    have h2 := direction_subset _ flip h1
    exact pack_mem_of_mem_rank (mem_of_mem_sortByRelevance h2)
  · intro cat page p flip x h
    have h1 := prunePage_subset _ page p h
    have h2 := direction_subset _ flip h1
    exact mem_of_mem_sortByDownloads h2

/-- C6 witness: a package passes through unchanged for an absent and for a
malformed engine parameter, the filter fires for a valid one, and a
singleton catalog survives the search and listing pipelines as itself. -/
theorem C6_engine_filter_scope_witness :
    (detailsEngineStep ⟨['n'], ['d'], 0, []⟩ none = ⟨['n'], ['d'], 0, []⟩) ∧
    (detailsEngineStep ⟨['n'], ['d'], 0, []⟩ (some ['x']) = ⟨['n'], ['d'], 0, []⟩) ∧
    (detailsEngineStep ⟨['n'], ['d'], 0, []⟩ (some ['1', '.', '2', '.', '3'])
      = EngineFilter ⟨['n'], ['d'], 0, []⟩ ['1', '.', '2', '.', '3']) ∧
    ((⟨⟨['n'], ['d'], 0, []⟩,
        max (score .lcsOverlap [] ['n']) (1 / 2 * score .lcsOverlap [] ['d'])⟩ :
          Scored).pack ∈ [(⟨['n'], ['d'], 0, []⟩ : Package)]) ∧
    ((⟨['n'], ['d'], 0, []⟩ : Package) ∈ [(⟨['n'], ['d'], 0, []⟩ : Package)]) :=
  ⟨C6_engine_filter_scope.1 ⟨['n'], ['d'], 0, []⟩,
    C6_engine_filter_scope.2.1 ⟨['n'], ['d'], 0, []⟩ ['x'] (by decide),
    C6_engine_filter_scope.2.2.1 ⟨['n'], ['d'], 0, []⟩ ['1', '.', '2', '.', '3'] (by decide),
    C6_engine_filter_scope.2.2.2.1 .lcsOverlap [] [⟨['n'], ['d'], 0, []⟩] 1 30 false
      ⟨⟨['n'], ['d'], 0, []⟩,
        max (score .lcsOverlap [] ['n']) (1 / 2 * score .lcsOverlap [] ['d'])⟩
      (List.mem_singleton_self _),
    C6_engine_filter_scope.2.2.2.2 [⟨['n'], ['d'], 0, []⟩] 1 30 false
      ⟨['n'], ['d'], 0, []⟩ (List.mem_singleton_self _)⟩

/-! ## Similarity contract (C7): distance bounds -/

theorem lev_nil_right (a : Str) : lev a [] = a.length := by
  cases a <;> simp [lev]

theorem lev_self (a : Str) : lev a a = 0 := by
  induction a with
  | nil => simp [lev]
  | cons x a ih => simp [lev, ih]

theorem lev_le_max (a b : Str) : lev a b ≤ max a.length b.length := by
  induction a generalizing b with
  | nil => simp [lev]
  | cons x a ih =>
    cases b with
    | nil => simp [lev]
    | cons y b =>
      by_cases h : x = y
      · have := ih b
        simp only [lev, if_pos h, List.length_cons]
        omega
      · have := ih b
        have h2 : min (lev a b) (min (lev (x :: a) b) (lev a (y :: b))) ≤ lev a b :=
          Nat.min_le_left _ _
        simp only [lev, if_neg h, List.length_cons]
        omega

theorem wed_nil_right (a : Str) : wed a [] = a.length := by
  cases a <;> simp [wed]

theorem wed_self (a : Str) : wed a a = 0 := by
  induction a with
  | nil => simp [wed]
  | cons x a ih => simp [wed, ih]

theorem wed_le_sum (a b : Str) : wed a b ≤ a.length + b.length := by
  induction a generalizing b with
  | nil => simp [wed]
  | cons x a ih =>
    cases b with
    | nil => simp [wed]
    | cons y b =>
      by_cases h : x = y
      · have := ih b
        simp only [wed, if_pos h, List.length_cons]
        omega
      · have h1 := ih (y :: b)
        have h2 : min (2 + wed a b) (min (1 + wed (x :: a) b) (1 + wed a (y :: b)))
            ≤ 1 + wed a (y :: b) :=
          le_trans (Nat.min_le_right _ _) (Nat.min_le_right _ _)
        simp only [wed, if_neg h, List.length_cons] at h1 ⊢
        omega

theorem lcsLen_nil_right (a : Str) : lcsLen a [] = 0 := by
  cases a <;> simp [lcsLen]

theorem lcsLen_self (a : Str) : lcsLen a a = a.length := by
  induction a with
  | nil => simp [lcsLen]
  | cons x a ih =>
    have h : lcsLen (x :: a) (x :: a) = 1 + lcsLen a a := by
      simp [lcsLen]
    rw [h, ih, List.length_cons]
    omega

theorem two_mul_lcsLen_le : ∀ (n : Nat) (a b : Str), a.length + b.length ≤ n →
    2 * lcsLen a b ≤ a.length + b.length := by
  intro n
  induction n with
  | zero =>
    intro a b h
    cases a with
    | nil => simp [lcsLen]
    | cons x a2 => simp at h
  | succ n ih =>
    intro a b h
    cases a with
    | nil => simp [lcsLen]
    | cons x a2 =>
      cases b with
      | nil => simp [lcsLen]
      | cons y b2 =>
        simp only [List.length_cons] at h
        by_cases hxy : x = y
        · have := ih a2 b2 (by omega)
          simp only [lcsLen, if_pos hxy, List.length_cons]
          omega
        · have h1 := ih (x :: a2) b2 (by simp; omega)
          have h2 := ih a2 (y :: b2) (by simp; omega)
          simp only [lcsLen, if_neg hxy, List.length_cons] at h1 h2 ⊢
          omega

theorem lcs_bound (a b : Str) : 2 * lcsLen a b ≤ a.length + b.length :=
  two_mul_lcsLen_le (a.length + b.length) a b le_rfl

/-! ## Similarity contract (C7): per-algorithm score bounds -/

theorem levSim_nonneg (a b : Str) : 0 ≤ levSim a b := by
  unfold levSim
  split
  · norm_num
  · rename_i h
    have hmax : 0 < max a.length b.length := by
      rcases not_and_or.mp h with h1 | h1
      · have := List.length_pos.mpr h1
        omega
      · have := List.length_pos.mpr h1
        omega
    have hcast : (0 : ℚ) < max (a.length : ℚ) (b.length : ℚ) := by exact_mod_cast hmax
    have hle : ((lev a b : Nat) : ℚ) ≤ max (a.length : ℚ) (b.length : ℚ) := by
      exact_mod_cast lev_le_max a b
    have hq : ((lev a b : Nat) : ℚ) / max (a.length : ℚ) (b.length : ℚ) ≤ 1 := by
      rw [div_le_one hcast]
      exact hle
    linarith

theorem levSim_le_one (a b : Str) : levSim a b ≤ 1 := by
  unfold levSim
  split
  · norm_num
  · have hq : (0 : ℚ) ≤ ((lev a b : Nat) : ℚ) / max (a.length : ℚ) (b.length : ℚ) := by
      positivity
    linarith

theorem levSim_self (a : Str) : levSim a a = 1 := by
  unfold levSim
  split
  · rfl
  · rw [lev_self]
    norm_num

theorem levSim_nil_right {a : Str} (h : a ≠ []) : levSim a [] = 0 := by
  unfold levSim
  rw [if_neg (by simp [h])]
  rw [lev_nil_right]
  have hl : ((a.length : Nat) : ℚ) ≠ 0 := by
    have := List.length_pos.mpr h
    positivity
  simp [div_self hl]

theorem wedSim_nonneg (a b : Str) : 0 ≤ wedSim a b := by
  unfold wedSim
  split
  · norm_num
  · rename_i h
    have hsum : 0 < a.length + b.length := by
      rcases not_and_or.mp h with h1 | h1
      · have := List.length_pos.mpr h1
        omega
      · have := List.length_pos.mpr h1
        omega
    have hcast : (0 : ℚ) < (a.length : ℚ) + (b.length : ℚ) := by exact_mod_cast hsum
    have hle : ((wed a b : Nat) : ℚ) ≤ (a.length : ℚ) + (b.length : ℚ) := by
      exact_mod_cast wed_le_sum a b
    have hq : ((wed a b : Nat) : ℚ) / ((a.length : ℚ) + (b.length : ℚ)) ≤ 1 := by
      rw [div_le_one hcast]
      exact hle
    linarith

theorem wedSim_le_one (a b : Str) : wedSim a b ≤ 1 := by
  unfold wedSim
  split
  · norm_num
  · have hq : (0 : ℚ) ≤ ((wed a b : Nat) : ℚ) / ((a.length : ℚ) + (b.length : ℚ)) := by
      positivity
    linarith

theorem wedSim_self (a : Str) : wedSim a a = 1 := by
  unfold wedSim
  split
  · rfl
  · rw [wed_self]
    norm_num

theorem wedSim_nil_right {a : Str} (h : a ≠ []) : wedSim a [] = 0 := by
  unfold wedSim
  rw [if_neg (by simp [h])]
  rw [wed_nil_right]
  have hl : ((a.length : Nat) : ℚ) ≠ 0 := by
    have := List.length_pos.mpr h
    positivity
  simp [div_self hl]

theorem lcsSim_nonneg (a b : Str) : 0 ≤ lcsSim a b := by
  unfold lcsSim
  split
  · norm_num
  · positivity

theorem lcsSim_le_one (a b : Str) : lcsSim a b ≤ 1 := by
  unfold lcsSim
  split
  · norm_num
  · rename_i h
    have hsum : 0 < a.length + b.length := by
      rcases not_and_or.mp h with h1 | h1
      · have := List.length_pos.mpr h1
        omega
      · have := List.length_pos.mpr h1
        omega
    have hcast : (0 : ℚ) < (a.length : ℚ) + (b.length : ℚ) := by exact_mod_cast hsum
    rw [div_le_one hcast]
    have := lcs_bound a b
    exact_mod_cast this

theorem lcsSim_self (a : Str) : lcsSim a a = 1 := by
  unfold lcsSim
  split
  · rfl
  · rename_i h
    have hne : a ≠ [] := by
      intro hcontra
      exact h ⟨hcontra, hcontra⟩
    rw [lcsLen_self]
    have hl : (0 : ℚ) < (a.length : ℚ) := by
      have := List.length_pos.mpr hne
      exact_mod_cast this
    have he : (a.length : ℚ) + (a.length : ℚ) = 2 * (a.length : ℚ) := by ring
    rw [he]
    rw [div_self (by positivity)]

theorem lcsSim_nil_right {a : Str} (h : a ≠ []) : lcsSim a [] = 0 := by
  unfold lcsSim
  rw [if_neg (by simp [h])]
  rw [lcsLen_nil_right]
  norm_num

/-! ## Similarity contract (C7): WSDM components -/

theorem bestMatch_nonneg (t : Str) (ts : List Str) : 0 ≤ bestMatch t ts := by
  unfold bestMatch
  induction ts with
  | nil => simp
  | cons u us ih =>
    simp only [List.map_cons, List.foldr_cons]
    exact le_max_of_le_right ih

theorem bestMatch_le_one (t : Str) (ts : List Str) : bestMatch t ts ≤ 1 := by
  unfold bestMatch
  induction ts with
  | nil => norm_num
  | cons u us ih =>
    simp only [List.map_cons, List.foldr_cons]
    exact max_le (levSim_le_one t u) ih

theorem le_bestMatch (t : Str) {u : Str} :
    ∀ {ts : List Str}, u ∈ ts → levSim t u ≤ bestMatch t ts := by
  intro ts
  induction ts with
  | nil => intro h; cases h
  | cons v vs ih =>
    intro h
    rcases List.mem_cons.mp h with h1 | h1
    · subst h1
      unfold bestMatch
      simp only [List.map_cons, List.foldr_cons]
      exact le_max_left _ _
    · have hrec := ih h1
      unfold bestMatch at hrec ⊢
      simp only [List.map_cons, List.foldr_cons]
      exact le_max_of_le_right hrec

theorem sum_of_all_one {l : List ℚ} (h : ∀ x ∈ l, x = 1) : l.sum = l.length := by
  induction l with
  | nil => simp
  | cons x xs ih =>
    have hx := h x (List.mem_cons_self x xs)
    have hxs := ih (fun y hy => h y (List.mem_cons_of_mem x hy))
    simp only [List.sum_cons, List.length_cons, hx, hxs]
    push_cast
    ring

theorem meanList_nonneg {l : List ℚ} (h : ∀ x ∈ l, 0 ≤ x) : 0 ≤ meanList l := by
  unfold meanList
  split
  · norm_num
  · rename_i hne
    have hs : 0 ≤ l.sum := List.sum_nonneg h
    have hl : (0 : ℚ) ≤ (l.length : ℚ) := by positivity
    positivity

theorem meanList_le_one {l : List ℚ} (h : ∀ x ∈ l, x ≤ 1) : meanList l ≤ 1 := by
  unfold meanList
  split
  · norm_num
  · rename_i hne
    have hl : (0 : ℚ) < (l.length : ℚ) := by
      have : l ≠ [] := hne
      have : 0 < l.length := List.length_pos.mpr this
      exact_mod_cast this
    rw [div_le_one hl]
    have := List.sum_le_card_nsmul l 1 h
    simpa using this

theorem meanList_all_one {l : List ℚ} (hne : l ≠ []) (h : ∀ x ∈ l, x = 1) :
    meanList l = 1 := by
  unfold meanList
  rw [if_neg hne, sum_of_all_one h]
  have hl : (l.length : ℚ) ≠ 0 := by
    have : 0 < l.length := List.length_pos.mpr hne
    positivity
  exact div_self hl

theorem tokenize_nil : tokenize [] = [] := rfl

theorem wsdmSim_nonneg (a b : Str) : 0 ≤ wsdmSim a b := by
  simp only [wsdmSim]
  split
  · exact levSim_nonneg a b
  · have hA : 0 ≤ meanList ((tokenize a).map (fun t => bestMatch t (tokenize b))) := by
      refine meanList_nonneg ?_
      intro x hx
      rcases List.mem_map.mp hx with ⟨t, _, rfl⟩
      exact bestMatch_nonneg t _
    have hB : 0 ≤ meanList ((tokenize b).map (fun t => bestMatch t (tokenize a))) := by
      refine meanList_nonneg ?_
      intro x hx
      rcases List.mem_map.mp hx with ⟨t, _, rfl⟩
      exact bestMatch_nonneg t _
    linarith

theorem wsdmSim_le_one (a b : Str) : wsdmSim a b ≤ 1 := by
  simp only [wsdmSim]
  split
  · exact levSim_le_one a b
  · have hA : meanList ((tokenize a).map (fun t => bestMatch t (tokenize b))) ≤ 1 := by
      refine meanList_le_one ?_
      intro x hx
      rcases List.mem_map.mp hx with ⟨t, _, rfl⟩
      exact bestMatch_le_one t _
    have hB : meanList ((tokenize b).map (fun t => bestMatch t (tokenize a))) ≤ 1 := by
      refine meanList_le_one ?_
      intro x hx
      rcases List.mem_map.mp hx with ⟨t, _, rfl⟩
      exact bestMatch_le_one t _
    linarith

theorem wsdmSim_self (a : Str) : wsdmSim a a = 1 := by
  simp only [wsdmSim]
  split
  · exact levSim_self a
  · rename_i h
    push_neg at h
    have hne : tokenize a ≠ [] := h.1
    have hone : ∀ x ∈ (tokenize a).map (fun t => bestMatch t (tokenize a)), x = 1 := by
      intro x hx
      rcases List.mem_map.mp hx with ⟨t, ht, rfl⟩
      refine le_antisymm (bestMatch_le_one t _) ?_
      have := le_bestMatch t ht
      rwa [levSim_self] at this
    rw [meanList_all_one (by simpa using hne) hone]
    norm_num

theorem wsdmSim_nil_right {a : Str} (h : a ≠ []) : wsdmSim a [] = 0 := by
  simp only [wsdmSim]
  rw [if_pos (Or.inr tokenize_nil)]
  exact levSim_nil_right h

theorem wsdmSim_empty : wsdmSim [] [] = 1 := by
  simp only [wsdmSim]
  rw [if_pos (Or.inl tokenize_nil)]
  unfold levSim
  rw [if_pos ⟨rfl, rfl⟩]

/-- C7: for every pair of strings and every selectable algorithm, the
similarity score lies in [0,1] and satisfies the boundary contract:
`score("","") = 1`, `score(a,"") = 0` and `score(a,a) = 1` for non-empty
`a`. Totality and determinism hold by construction: `score` is a total
function of its arguments with no other inputs. -/
theorem C7_similarity_contract (alg : Algorithm) (a b : Str) :
    (0 ≤ score alg a b ∧ score alg a b ≤ 1) ∧
    score alg [] [] = 1 ∧
    (a ≠ [] → score alg a [] = 0 ∧ score alg a a = 1) := by
  cases alg with
  | levenshteinDistance =>
    exact ⟨⟨levSim_nonneg a b, levSim_le_one a b⟩, levSim_self [],
      fun h => ⟨levSim_nil_right h, levSim_self a⟩⟩
  | vlEditDistance =>
    exact ⟨⟨wedSim_nonneg a b, wedSim_le_one a b⟩, wedSim_self [],
      fun h => ⟨wedSim_nil_right h, wedSim_self a⟩⟩
  | levenshteinDistanceWSDM =>
    exact ⟨⟨wsdmSim_nonneg a b, wsdmSim_le_one a b⟩, wsdmSim_empty,
      fun h => ⟨wsdmSim_nil_right h, wsdmSim_self a⟩⟩
  | lcsOverlap =>
    exact ⟨⟨lcsSim_nonneg a b, lcsSim_le_one a b⟩, lcsSim_self [],
      fun h => ⟨lcsSim_nil_right h, lcsSim_self a⟩⟩

/-- C7 witness: the boundary contract at the non-empty string "z" under the
LCS algorithm. -/
theorem C7_similarity_contract_witness :
    (['z'] ≠ ([] : Str)) ∧
    (score .lcsOverlap ['z'] [] = 0 ∧ score .lcsOverlap ['z'] ['z'] = 1) :=
  ⟨by decide, (C7_similarity_contract .lcsOverlap ['z'] []).2.2 (by decide)⟩
